import Mathlib

/-!
Verification of the MindRecord storage layer specification against the
repository sources.  Pure Python functions from the sources are embedded
as Lean functions; components whose implementation is not shipped in the
source tree (the storage engine proper) are modelled from the design
specification, as indicated in the doc comment of each such definition.
-/

set_option maxRecDepth 4000

namespace MindSpec

/-! # Byte-level helpers (little-endian fixed-width integers) -/

/-- A byte is modelled as a natural number below 256; byte strings are
lists of naturals.  `natToLE w n` is the `w`-byte little-endian encoding
of `n % 256^w`. -/
def natToLE : Nat → Nat → List Nat
  | 0, _ => []
  | w + 1, n => (n % 256) :: natToLE w (n / 256)

/-- Read a little-endian byte string back into a natural number. -/
def leToNat : List Nat → Nat
  | [] => 0
  | b :: bs => b + 256 * leToNat bs

/-- Two's-complement little-endian encoding of a signed integer into `w`
bytes, as required by the spec's "integers are fixed-width little-endian". -/
def intToLE (w : Nat) (v : Int) : List Nat :=
  natToLE w (v % ((256 : Int) ^ w)).toNat

/-- Decode a `w`-byte little-endian two's-complement signed integer. -/
def leToInt (w : Nat) (bs : List Nat) : Int :=
  let n := leToNat bs
  if n < 256 ^ w / 2 then (n : Int) else (n : Int) - (256 : Int) ^ w

/-! # C2: the public surface of `mindspore.mindrecord`

The export list is transcribed from `src/mindspore/mindrecord/__init__.py`,
lines 36-38 (`__all__`). -/

/-- The `__all__` list of the `mindspore.mindrecord` package, verbatim from
the source. -/
def mindrecord_all : List String :=
  ["FileWriter", "FileReader", "MindPage",
   "Cifar10ToMR", "Cifar100ToMR", "ImageNetToMR", "MnistToMR", "TFRecordToMR",
   "SUCCESS", "FAILED"]

/-- The six abstract collaborator operations the specification says form
the entire surface available to the training layer. -/
def specSurface : List String :=
  ["create_dataset", "write_batch", "finalize", "open_dataset",
   "read_batch", "read_shard_range"]

/-! # Python-level error values shared by the embedded functions -/

inductive PyErr where
  | notImplementedError (msg : String)
  | valueError (msg : String)
  deriving DecidableEq

/-! # C8: `create_network` from `model_zoo/official/gnn/bgcf/mindspore_hub_conf.py` -/

/-- The fields of the parsed configuration object that `create_network`
reads (`parser_args()` result). -/
structure BgcfConfig where
  input_dim : Int
  num_user : Int
  num_item : Int
  embedded_dimension : Int
  activation : String
  deriving DecidableEq

/-- The BGCF network value, recording the constructor arguments passed by
`bgcf_net` (the network internals are out of scope). -/
structure BGCF where
  dataset_argv : List Int
  architect_argv : Int
  activation : String
  neigh_drop_rate : List Rat
  num_user : Int
  num_item : Int
  input_dim : Int
  deriving DecidableEq

/-- `bgcf_net(*args)` forwards its arguments to the `BGCF` constructor. -/
def bgcf_net (dataset_argv : List Int) (architect_argv : Int) (activation : String)
    (neigh_drop_rate : List Rat) (num_user num_item input_dim : Int) : BGCF :=
  ⟨dataset_argv, architect_argv, activation, neigh_drop_rate, num_user, num_item, input_dim⟩

/-- `create_network(name)` from `mindspore_hub_conf.py`: on `"bgcf"` it
overrides `num_user`/`num_item` on the parsed config and builds the
network; on any other name it raises `NotImplementedError`.  The parsed
configuration is passed explicitly since `parser_args` reads the command
line. -/
def create_network (name : String) (parsed : BgcfConfig) : Except PyErr BGCF :=
  if name = "bgcf" then
    let config := { parsed with num_user := 7068, num_item := 3570 }
    .ok (bgcf_net [config.input_dim, config.num_user, config.num_item]
          config.embedded_dimension config.activation [0, 0, 0]
          config.num_user config.num_item config.input_dim)
  else
    .error (.notImplementedError (name ++ " is not implemented in the repo"))

/-! # C9: `LossGet.__init__` from
`tests/st/networks/models/resnet50/test_resnet50_imagenet_and_thor.py` -/

/-- A dynamically typed Python value, as far as `LossGet.__init__`
inspects it: either an `int` or something that is not an `int`. -/
inductive PyVal where
  | pyInt (n : Int)
  | pyFloat (q : Rat)
  | pyStr (s : String)
  | pyNone
  deriving DecidableEq

/-- The attributes `LossGet.__init__` sets on success (`_loss` is the
float `0.0`, modelled as the exact rational `0`). -/
structure LossGet where
  per_print_times : Int
  loss : Rat
  data_size : Int
  epoch : Int
  deriving DecidableEq

/-- `LossGet.__init__(per_print_times, data_size)`: raises `ValueError`
when `per_print_times` is not an `int` or is negative, otherwise records
the arguments and initializes `_loss = 0.0`, `_epoch = 0`. -/
def LossGet_init (per_print_times : PyVal) (data_size : Int) : Except PyErr LossGet :=
  match per_print_times with
  | .pyInt n =>
      if n < 0 then .error (.valueError "print_step must be int and >= 0.")
      else .ok { per_print_times := n, loss := 0, data_size := data_size, epoch := 0 }
  | _ => .error (.valueError "print_step must be int and >= 0.")

/-! # C10: `get_thor_lr` from
`tests/st/networks/models/resnet50/test_resnet50_imagenet_and_thor.py`

The Python function computes with floats; here arithmetic is exact
rational arithmetic and the float power operator `**` is abstracted as an
explicit function argument `powf`. -/

/-- One iteration of the `get_thor_lr` loop body: the learning rate the
source appends for step `i` (sequential conditional halvings, exactly as
written). -/
def thorLoopStep (powf : Rat → Rat → Rat) (lr_init decay : Rat)
    (total_epochs steps_per_epoch : Nat) (decay_epochs : Rat) (i : Nat) : Rat :=
  let epoch : Rat := ((i : Rat) + 1) / (steps_per_epoch : Rat)
  let base := powf (1 - epoch / (total_epochs : Rat)) decay
  let lr1 := lr_init * base
  let lr2 := if decay_epochs ≤ epoch then lr1 * (1 / 2) else lr1
  if decay_epochs + 1 ≤ epoch then lr2 * (1 / 2) else lr2

/-- `get_thor_lr(global_step, lr_init, decay, total_epochs,
steps_per_epoch, decay_epochs)`: builds the per-step schedule by the
source loop (append per step) and returns its suffix from `global_step`. -/
def get_thor_lr (powf : Rat → Rat → Rat) (global_step : Nat) (lr_init decay : Rat)
    (total_epochs steps_per_epoch : Nat) (decay_epochs : Rat) : List Rat :=
  let total_steps := steps_per_epoch * total_epochs
  let lr_each_step :=
    (List.range total_steps).foldl
      (fun acc i =>
        acc ++ [thorLoopStep powf lr_init decay total_epochs steps_per_epoch
          decay_epochs i]) []
  lr_each_step.drop global_step

/-- The closed form of one entry of the full schedule, as the claim
states it: base learning rate times one optional halving per threshold. -/
def thorStepLr (powf : Rat → Rat → Rat) (lr_init decay : Rat)
    (total_epochs steps_per_epoch : Nat) (decay_epochs : Rat) (i : Nat) : Rat :=
  let epoch : Rat := (i + 1) / steps_per_epoch
  lr_init * powf (1 - epoch / total_epochs) decay *
    (if decay_epochs ≤ epoch then 1 / 2 else 1) *
    (if decay_epochs + 1 ≤ epoch then 1 / 2 else 1)

/-! # Spec-modelled storage engine

The storage engine proper (record codec, shard storage, index manager,
writer, reader) ships outside the source tree; only its package surface
is in `src/`.  The following definitions are modelled from the design
specification, sections 3, 4 and 6. -/

/-- Modelled from the spec: the error taxonomy of section 7. -/
inductive MRErr where
  | schemaError
  | encodingError
  | storageError
  | indexError
  | notFoundError
  | rangeError
  | stateError
  | corruptionError
  deriving DecidableEq

/-- Modelled from the spec: the closed enumeration of field type tags
(section 3, Schema).  An ndarray payload lives in the blob region like
strings and bytes (glossary: the blob region holds strings, bytes and
large payloads). -/
inductive FieldType where
  | int32
  | int64
  | float32
  | float64
  | stringT
  | bytesT
  | ndarrayT
  deriving DecidableEq

/-- Modelled from the spec: one schema field: name, type tag, nullable
flag (section 3, Schema). -/
structure SField where
  fname : String
  ftype : FieldType
  nullable : Bool
  deriving DecidableEq

/-- Modelled from the spec: a schema is an ordered list of fields. -/
abbrev Schema := List SField

/-- Modelled from the spec: a tagged-union record value (design note:
loosely typed containers become a tagged union keyed by the declared type
tag).  Floats carry their IEEE-754 bit pattern; strings, bytes and
ndarray payloads are raw byte strings. -/
inductive Value where
  | vint32 (v : Int)
  | vint64 (v : Int)
  | vfloat32 (bits : Nat)
  | vfloat64 (bits : Nat)
  | vstring (bs : List Nat)
  | vbytes (bs : List Nat)
  | vnd (bs : List Nat)
  | vnull
  deriving DecidableEq

/-- A record is the list of field values in schema field order. -/
abbrev SRecord := List Value

/-- Whether a type tag denotes a variable-length (blob region) field. -/
def isVar : FieldType → Bool
  | .stringT => true
  | .bytesT => true
  | .ndarrayT => true
  | _ => false

/-- Byte width of a scalar field in the fixed row region (variable-length
fields occupy no fixed-row bytes). -/
def scalarWidth : FieldType → Nat
  | .int32 => 4
  | .int64 => 8
  | .float32 => 4
  | .float64 => 8
  | _ => 0

/-- Modelled from the spec: the configured maximum length of a
variable-length value, default `2^31 - 1` (section 4.2). -/
def maxBlobLen : Nat := 2147483647

/-- Whether a value is the null value. -/
def isNull : Value → Bool
  | .vnull => true
  | _ => false

/-- Modelled from the spec: a value conforms to a field when its tag
matches the declared type tag, scalars are in range for their fixed
width, variable-length payloads are byte strings within the configured
maximum, and null only occurs on nullable fields. -/
def valueOk (f : SField) (v : Value) : Bool :=
  match v with
  | .vnull => f.nullable
  | .vint32 x => f.ftype == .int32 && decide (-2147483648 ≤ x) && decide (x < 2147483648)
  | .vint64 x => f.ftype == .int64 && decide (-9223372036854775808 ≤ x)
      && decide (x < 9223372036854775808)
  | .vfloat32 b => f.ftype == .float32 && decide (b < 4294967296)
  | .vfloat64 b => f.ftype == .float64 && decide (b < 18446744073709551616)
  | .vstring bs => f.ftype == .stringT && bs.all (fun b => b < 256)
      && decide (bs.length ≤ maxBlobLen)
  | .vbytes bs => f.ftype == .bytesT && bs.all (fun b => b < 256)
      && decide (bs.length ≤ maxBlobLen)
  | .vnd bs => f.ftype == .ndarrayT && bs.all (fun b => b < 256)
      && decide (bs.length ≤ maxBlobLen)

/-- Modelled from the spec: a record is valid for a schema when it has
one conforming value per field, in schema order (section 3, Record). -/
def validRecord (s : Schema) (r : SRecord) : Bool :=
  r.length == s.length && (s.zip r).all (fun p => valueOk p.1 p.2)

/-- Pack a list of up to eight bits into one byte, least significant
first. -/
def bitsToByte : List Bool → Nat
  | [] => 0
  | b :: bs => (if b then 1 else 0) + 2 * bitsToByte bs

/-- Modelled from the spec: the null bitmap, `ceil(fieldcount/8)` bytes,
bit `i` set when field `i` is null (section 6, row entry). -/
def bitmapBytes (l : List Bool) : List Nat :=
  if l.isEmpty then [] else bitsToByte (l.take 8) :: bitmapBytes (l.drop 8)
termination_by l.length
decreasing_by
  simp only [List.length_drop]
  cases l with
  | nil => simp [List.isEmpty] at *
  | cons a l => simp only [List.length_cons]; omega

/-- Read bit `j` of a byte string interpreted as a bitmap. -/
def bitGet (bm : List Nat) (j : Nat) : Bool :=
  decide ((bm.getD (j / 8) 0 / 2 ^ (j % 8)) % 2 = 1)

/-- The fixed-row bytes of one field slot: the scalar encoding, zeros for
a null scalar slot, nothing for a variable-length field. -/
def fixedSlot (f : SField) (v : Value) : List Nat :=
  match v with
  | .vint32 x => intToLE 4 x
  | .vint64 x => intToLE 8 x
  | .vfloat32 b => natToLE 4 b
  | .vfloat64 b => natToLE 8 b
  | .vnull => List.replicate (scalarWidth f.ftype) 0
  | _ => []

/-- The blob bytes of one field slot: a u32 length prefix followed by the
payload for a variable-length field (a null one stores length 0),
nothing for a scalar field (section 6, blob entry). -/
def blobSlot (f : SField) (v : Value) : List Nat :=
  if isVar f.ftype then
    match v with
    | .vstring bs => natToLE 4 bs.length ++ bs
    | .vbytes bs => natToLE 4 bs.length ++ bs
    | .vnd bs => natToLE 4 bs.length ++ bs
    | _ => natToLE 4 0
  else []

/-- Concatenated fixed-row bytes and blob bytes of a field list. -/
def encodeFields : List SField → List Value → List Nat × List Nat
  | f :: fs, v :: vs =>
      let rest := encodeFields fs vs
      (fixedSlot f v ++ rest.1, blobSlot f v ++ rest.2)
  | _, _ => ([], [])

/-- Modelled from the spec: `encode(schema, record)` returns the
fixed-width row (null bitmap then scalar slots in schema order) and the
blob buffer (length-prefixed variable-length payloads in schema order);
fails with `EncodingError` on a non-conforming record (section 4.2). -/
def encode (s : Schema) (r : SRecord) : Except MRErr (List Nat × List Nat) :=
  if validRecord s r then
    let body := encodeFields s r
    .ok (bitmapBytes (r.map isNull) ++ body.1, body.2)
  else .error .encodingError

/-- Decode the field slots, consuming the fixed row and the blob buffer
from the front; `j` is the index of the current field in the bitmap. -/
def decodeFields : List SField → List Nat → Nat → List Nat → List Nat →
    Except MRErr (List Value)
  | [], _, _, fx, bl =>
      if fx.isEmpty && bl.isEmpty then .ok [] else .error .corruptionError
  | f :: fs, bm, j, fx, bl =>
      if isVar f.ftype then
        if bl.length < 4 then .error .corruptionError
        else
          let len := leToNat (bl.take 4)
          let bl1 := bl.drop 4
          if bl1.length < len then .error .corruptionError
          else
            let payload := bl1.take len
            let v : Value :=
              if bitGet bm j then .vnull
              else match f.ftype with
                | .stringT => .vstring payload
                | .ndarrayT => .vnd payload
                | _ => .vbytes payload
            (decodeFields fs bm (j + 1) fx (bl1.drop len)).map (fun vs => v :: vs)
      else
        let w := scalarWidth f.ftype
        if fx.length < w then .error .corruptionError
        else
          let chunk := fx.take w
          let v : Value :=
            if bitGet bm j then .vnull
            else match f.ftype with
              | .int32 => .vint32 (leToInt 4 chunk)
              | .int64 => .vint64 (leToInt 8 chunk)
              | .float32 => .vfloat32 (leToNat chunk)
              | _ => .vfloat64 (leToNat chunk)
          (decodeFields fs bm (j + 1) (fx.drop w) bl).map (fun vs => v :: vs)

/-- Modelled from the spec: `decode(schema, fixed_bytes, blob_bytes)`
reads the null bitmap prefix and then each field slot in schema order,
the exact inverse of `encode` (section 4.2). -/
def decode (s : Schema) (fixed blob : List Nat) : Except MRErr SRecord :=
  let bmLen := (s.length + 7) / 8
  if fixed.length < bmLen then .error .corruptionError
  else decodeFields s (fixed.take bmLen) 0 (fixed.drop bmLen) blob

/-! # C4: crash-truncation recovery (modelled from the spec, section 4.3
and section 7) -/

/-- Modelled from the spec: the shard tail as a sequence of
length-prefixed entries: a u32 little-endian length followed by the
payload bytes, per record (section 4.3, failure handling). -/
def serializeEntries : List (List Nat) → List Nat
  | [] => []
  | e :: es => natToLE 4 e.length ++ e ++ serializeEntries es

/-- Modelled from the spec: scan a possibly truncated shard tail: read a
u32 length prefix; when the prefix and the declared payload both lie
within the remaining bytes, yield the entry and continue, otherwise stop
(the truncated tail is detected by validating the declared length
against the actual size, and discarded). -/
def parseEntries (bytes : List Nat) : List (List Nat) :=
  if bytes.length < 4 then []
  else
    let len := leToNat (bytes.take 4)
    let rest := bytes.drop 4
    if rest.length < len then []
    else rest.take len :: parseEntries (rest.drop len)
termination_by bytes.length
decreasing_by
  simp only [List.length_drop]
  omega

/-- The number of leading entries whose full length-prefixed encoding
fits within the first `k` bytes. -/
def recCount : List (List Nat) → Nat → Nat
  | [], _ => 0
  | e :: es, k => if 4 + e.length ≤ k then recCount es (k - (4 + e.length)) + 1 else 0

/-- Modelled from the spec: what a Reader opened on a truncated dataset
exposes in recovered mode: the recoverable records and the count of
recoverable versus total expected records (section 7, user-visible
behavior). -/
structure RecoveredReader where
  records : List (List Nat)
  recoverable : Nat
  total : Nat
  deriving DecidableEq

/-- Modelled from the spec: opening in recovered mode always succeeds
(it is a total function), yielding the parseable prefix and the counts. -/
def openRecovered (declaredTotal : Nat) (bytes : List Nat) : RecoveredReader :=
  let rs := parseEntries bytes
  { records := rs, recoverable := rs.length, total := declaredTotal }

/-! # Writer lifecycle and durability (modelled from the spec,
sections 4.5 and 5) -/

/-- Modelled from the spec: the Writer lifecycle states (section 4.5). -/
inductive WState where
  | created
  | openW
  | sealed
  | aborted
  deriving DecidableEq

/-- Modelled from the spec: a Writer with its shard and index state:
durable records (already flushed, survive a crash), staged volatile
records, and staged volatile index entries.  Records are taken as
already-encoded byte strings; the codec is verified separately. -/
structure Writer where
  state : WState
  durable : List (List Nat)
  staged : List (List Nat)
  stagedIds : List Nat
  deriving DecidableEq

/-- Modelled from the spec: `write(record)` stages the record and its
index entry when the Writer is open-for-write, and fails with
`StateError`, leaving every component of the Writer untouched, in any
other state. -/
def write (w : Writer) (r : List Nat) : Writer × Option MRErr :=
  match w.state with
  | .openW =>
      ({ w with
          staged := w.staged ++ [r],
          stagedIds := w.stagedIds ++ [w.durable.length + w.staged.length] }, none)
  | _ => (w, some .stateError)

/-- Modelled from the spec: `commit()` durably flushes all staged
records and index entries (the durability barrier of section 5). -/
def commit (w : Writer) : Writer × Option MRErr :=
  match w.state with
  | .openW =>
      ({ w with
          durable := w.durable ++ w.staged, staged := [], stagedIds := [] }, none)
  | _ => (w, some .stateError)

/-- Modelled from the spec: `seal()` flushes staged state and moves to
the terminal sealed state. -/
def sealW (w : Writer) : Writer × Option MRErr :=
  match w.state with
  | .openW =>
      ({ w with
          state := .sealed, durable := w.durable ++ w.staged,
          staged := [], stagedIds := [] }, none)
  | _ => (w, some .stateError)

/-- Modelled from the spec: `abort()` discards all staged state
(truncating to the last committed length) and moves to the terminal
aborted state. -/
def abort (w : Writer) : Writer × Option MRErr :=
  match w.state with
  | .openW => ({ w with state := .aborted, staged := [], stagedIds := [] }, none)
  | _ => (w, some .stateError)

/-- Modelled from the spec: killing the process destroys all volatile
staged state; durable bytes survive. -/
def crash (w : Writer) : Writer :=
  { w with staged := [], stagedIds := [] }

/-- Modelled from the spec: a fresh Reader opened on the dataset yields
exactly the durable records. -/
def readerRecords (w : Writer) : List (List Nat) :=
  w.durable

/-- Apply a sequence of `write(record)` calls. -/
def writeAll (w : Writer) (rs : List (List Nat)) : Writer :=
  rs.foldl (fun acc r => (write acc r).1) w

/-! # Index Manager (modelled from the spec, section 4.4) -/

/-- Modelled from the spec: a placement locating a record's bytes
(glossary; index entry of section 3). -/
structure Placement where
  shard_id : Nat
  row_offset : Nat
  blob_offset : Nat
  blob_length : Nat
  deriving DecidableEq

/-- Modelled from the spec: the Index Manager holds the index entries,
appended in write order (section 3, Index Entry). -/
structure IndexManager where
  entries : List (Nat × Placement)
  deriving DecidableEq

/-- Whether a record id is present in the index. -/
def hasId (im : IndexManager) (rid : Nat) : Bool :=
  im.entries.any (fun p => p.1 == rid)

/-- Modelled from the spec: `add(record_id, placement)` appends one
index entry in memory and stages it for durable flush; fails with
`IndexError` when the record id already exists and overwrite is not
requested. -/
def addEntry (im : IndexManager) (rid : Nat) (pl : Placement) (overwrite : Bool) :
    Except MRErr IndexManager :=
  if hasId im rid && !overwrite then .error .indexError
  else .ok ⟨im.entries ++ [(rid, pl)]⟩

/-- Modelled from the spec: `lookup(record_id)` returns the placement,
failing with `NotFoundError` when the id is absent. -/
def lookup (im : IndexManager) (rid : Nat) : Except MRErr Placement :=
  match im.entries.find? (fun p => p.1 == rid) with
  | some p => .ok p.2
  | none => .error .notFoundError

/-- Ordering of index entries by record id. -/
def keyLe (a b : Nat × Placement) : Prop :=
  a.1 ≤ b.1

instance : DecidableRel keyLe :=
  fun a b => Nat.decLe a.1 b.1

instance : IsTotal (Nat × Placement) keyLe :=
  ⟨fun a b => Nat.le_total a.1 b.1⟩

instance : IsTrans (Nat × Placement) keyLe :=
  ⟨fun _ _ _ hab hbc => Nat.le_trans hab hbc⟩

/-- Modelled from the spec: `range(start_id, end_id)` scans the index
and produces the entries whose id lies in `[start_id, end_id)` in
ascending record-id order; the scan leaves the index untouched, so a
fresh call re-scans from `start_id` and reproduces the sequence. -/
def rangeScan (im : IndexManager) (s e : Nat) :
    List (Nat × Placement) × IndexManager :=
  (List.insertionSort keyLe
    (im.entries.filter (fun p => decide (s ≤ p.1) && decide (p.1 < e))), im)

/-- Modelled from the spec: the index produced by writing `N` records
under a row-region maximum of `m` records per shard: record `i` lands in
shard `i / m` at row slot `i % m`, entries appended in write order
(section 4.3, shard rollover). -/
def buildIndex (N m : Nat) : IndexManager :=
  ⟨(List.range N).map (fun i => (i, ⟨i / m, i % m, 0, 0⟩))⟩

theorem natToLE_length (w n : Nat) : (natToLE w n).length = w := by
  induction w generalizing n with
  | zero => rfl
  | succ w ih => simp [natToLE, ih]

theorem leToNat_natToLE (w n : Nat) : leToNat (natToLE w n) = n % 256 ^ w := by
  induction w generalizing n with
  | zero => simp [natToLE, leToNat, Nat.mod_one]
  | succ w ih =>
      simp only [natToLE, leToNat, ih]
      rw [pow_succ, Nat.mul_comm (256 ^ w) 256, Nat.mod_mul]

theorem leToInt_intToLE_4 (v : Int) (h1 : -2147483648 ≤ v) (h2 : v < 2147483648) :
    leToInt 4 (intToLE 4 v) = v := by
  simp only [leToInt, intToLE, leToNat_natToLE]
  norm_num
  omega

theorem leToInt_intToLE_8 (v : Int) (h1 : -9223372036854775808 ≤ v)
    (h2 : v < 9223372036854775808) : leToInt 8 (intToLE 8 v) = v := by
  simp only [leToInt, intToLE, leToNat_natToLE]
  norm_num
  omega

theorem foldl_append_singleton (f : Nat → Rat) (l : List Nat) (init : List Rat) :
    l.foldl (fun acc i => acc ++ [f i]) init = init ++ l.map f := by
  induction l generalizing init with
  | nil => simp
  | cons a l ih => simp [ih]

theorem thorLoopStep_eq_thorStepLr (powf : Rat → Rat → Rat) (lr_init decay : Rat)
    (total_epochs steps_per_epoch : Nat) (decay_epochs : Rat) (i : Nat) :
    thorLoopStep powf lr_init decay total_epochs steps_per_epoch decay_epochs i =
      thorStepLr powf lr_init decay total_epochs steps_per_epoch decay_epochs i := by
  unfold thorLoopStep thorStepLr
  by_cases h1 : decay_epochs ≤ ((i : Rat) + 1) / (steps_per_epoch : Rat) <;>
    by_cases h2 :
      decay_epochs + 1 ≤ ((i : Rat) + 1) / (steps_per_epoch : Rat) <;>
    simp only [h1, h2, if_true, if_false] <;> ring

theorem intToLE_length (w : Nat) (v : Int) : (intToLE w v).length = w := by
  simp [intToLE, natToLE_length]

theorem bitsToByte_testBit (bs : List Bool) (i : Nat) (h : i < bs.length) :
    bitsToByte bs / 2 ^ i % 2 = (if bs.getD i false then 1 else 0) := by
  induction bs generalizing i with
  | nil => simp at h
  | cons b tl ih =>
      cases i with
      | zero =>
          simp only [bitsToByte, pow_zero, Nat.div_one, List.getD_cons_zero]
          cases b <;> simp
      | succ i =>
          have hstep : bitsToByte (b :: tl) / 2 ^ (i + 1) = bitsToByte tl / 2 ^ i := by
            have : (2 : Nat) ^ (i + 1) = 2 * 2 ^ i := by ring
            rw [this, ← Nat.div_div_eq_div_mul]
            congr 1
            simp only [bitsToByte]
            cases b
            · simp
            · simp
              omega
          rw [hstep, List.getD_cons_succ]
          exact ih i (by simpa using h)

theorem bitGet_bitmapBytes (l : List Bool) (j : Nat) (h : j < l.length) :
    bitGet (bitmapBytes l) j = l.getD j false := by
  induction l using bitmapBytes.induct generalizing j with
  | case1 l hl =>
      rw [List.isEmpty_iff] at hl
      subst hl
      simp at h
  | case2 l hl ih =>
      rw [bitmapBytes, if_neg (by simp [hl])]
      by_cases hj : j < 8
      · have hj8 : j / 8 = 0 := by omega
        have hjm : j % 8 = j := by omega
        have htk : j < (l.take 8).length := by
          simp only [List.length_take]
          omega
        simp only [bitGet, hj8, hjm, List.getD_cons_zero]
        rw [bitsToByte_testBit (l.take 8) j htk]
        have hsame : (l.take 8).getD j false = l.getD j false := by
          rw [List.getD_eq_getElem?_getD, List.getD_eq_getElem?_getD,
            List.getElem?_take, if_pos hj]
        rw [hsame]
        cases l.getD j false <;> simp
      · have hj8 : j / 8 = (j - 8) / 8 + 1 := by omega
        have hjm : j % 8 = (j - 8) % 8 := by omega
        have hdl : j - 8 < (l.drop 8).length := by
          simp only [List.length_drop]
          omega
        have hrec := ih (j - 8) hdl
        simp only [bitGet] at hrec
        simp only [bitGet, hj8, hjm, List.getD_cons_succ]
        rw [hrec]
        have h8 : 8 + (j - 8) = j := by omega
        rw [List.getD_eq_getElem?_getD, List.getD_eq_getElem?_getD,
          List.getElem?_drop, h8]

theorem bitmapBytes_length (l : List Bool) :
    (bitmapBytes l).length = (l.length + 7) / 8 := by
  induction l using bitmapBytes.induct with
  | case1 l hl =>
      rw [List.isEmpty_iff] at hl
      subst hl
      simp [bitmapBytes]
  | case2 l hl ih =>
      rw [bitmapBytes, if_neg (by simp [hl])]
      have hne : l.length ≠ 0 := by
        cases l with
        | nil => simp at hl
        | cons a t => simp
      simp only [List.length_cons, ih, List.length_drop]
      omega

theorem validRecord_forall2 (s : Schema) (r : SRecord) (h : validRecord s r = true) :
    List.Forall₂ (fun f v => valueOk f v = true) s r := by
  induction s generalizing r with
  | nil =>
      cases r with
      | nil => exact List.Forall₂.nil
      | cons v vs => simp [validRecord] at h
  | cons f fs ih =>
      cases r with
      | nil => simp [validRecord] at h
      | cons v vs =>
          simp only [validRecord, List.zip_cons_cons, List.all_cons, Bool.and_eq_true,
            beq_iff_eq, List.length_cons] at h
          exact List.Forall₂.cons h.2.1 (ih vs (by
            simp only [validRecord, Bool.and_eq_true, beq_iff_eq]
            exact ⟨by omega, h.2.2⟩))

theorem isVar_scalarWidth (t : FieldType) (h : isVar t = true) : scalarWidth t = 0 := by
  cases t <;> simp [isVar, scalarWidth] at *

theorem decodeFields_encodeFields (fs : List SField) (vs : List Value) (bm : List Nat)
    (j : Nat) (hall : List.Forall₂ (fun f v => valueOk f v = true) fs vs)
    (hbm : ∀ i, i < vs.length → bitGet bm (j + i) = isNull (vs.getD i .vnull)) :
    decodeFields fs bm j (encodeFields fs vs).1 (encodeFields fs vs).2 = .ok vs := by
  induction hall generalizing j with
  | nil => simp [encodeFields, decodeFields]
  | @cons f v fs' vs' hfv htl ih =>
      have hb0 : bitGet bm j = isNull v := by
        have := hbm 0 (by simp)
        simpa using this
      have hbm2 : ∀ i, i < vs'.length → bitGet bm (j + 1 + i) = isNull (vs'.getD i .vnull) := by
        intro i hi
        have heq : j + (i + 1) = j + 1 + i := by omega
        have := hbm (i + 1) (by simp only [List.length_cons]; omega)
        rw [heq] at this
        simpa using this
      have hrec := ih (j + 1) hbm2
      simp only [encodeFields]
      cases v with
      | vint32 x =>
          simp only [valueOk, Bool.and_eq_true, beq_iff_eq, decide_eq_true_eq] at hfv
          obtain ⟨⟨hty, hge⟩, hlt⟩ := hfv
          simp only [isNull] at hb0
          simp only [fixedSlot, blobSlot, decodeFields, hty, isVar, scalarWidth,
            Bool.false_eq_true, if_false]
          rw [if_neg (by simp [intToLE_length])]
          rw [List.take_left' (intToLE_length 4 x), List.drop_left' (intToLE_length 4 x)]
          rw [hb0, leToInt_intToLE_4 x hge hlt]
          simp [hrec, Except.map]
      | vint64 x =>
          simp only [valueOk, Bool.and_eq_true, beq_iff_eq, decide_eq_true_eq] at hfv
          obtain ⟨⟨hty, hge⟩, hlt⟩ := hfv
          simp only [isNull] at hb0
          simp only [fixedSlot, blobSlot, decodeFields, hty, isVar, scalarWidth,
            Bool.false_eq_true, if_false]
          rw [if_neg (by simp [intToLE_length])]
          rw [List.take_left' (intToLE_length 8 x), List.drop_left' (intToLE_length 8 x)]
          rw [hb0, leToInt_intToLE_8 x hge hlt]
          simp [hrec, Except.map]
      | vfloat32 b =>
          simp only [valueOk, Bool.and_eq_true, beq_iff_eq, decide_eq_true_eq] at hfv
          obtain ⟨hty, hlt⟩ := hfv
          simp only [isNull] at hb0
          simp only [fixedSlot, blobSlot, decodeFields, hty, isVar, scalarWidth,
            Bool.false_eq_true, if_false]
          rw [if_neg (by simp [natToLE_length])]
          rw [List.take_left' (natToLE_length 4 b), List.drop_left' (natToLE_length 4 b)]
          rw [hb0, leToNat_natToLE]
          rw [Nat.mod_eq_of_lt (by norm_num; omega)]
          simp [hrec, Except.map]
      | vfloat64 b =>
          simp only [valueOk, Bool.and_eq_true, beq_iff_eq, decide_eq_true_eq] at hfv
          obtain ⟨hty, hlt⟩ := hfv
          simp only [isNull] at hb0
          simp only [fixedSlot, blobSlot, decodeFields, hty, isVar, scalarWidth,
            Bool.false_eq_true, if_false]
          rw [if_neg (by simp [natToLE_length])]
          rw [List.take_left' (natToLE_length 8 b), List.drop_left' (natToLE_length 8 b)]
          rw [hb0, leToNat_natToLE]
          rw [Nat.mod_eq_of_lt (by norm_num; omega)]
          simp [hrec, Except.map]
      | vstring bs =>
          simp only [valueOk, Bool.and_eq_true, beq_iff_eq, decide_eq_true_eq] at hfv
          obtain ⟨⟨hty, hbytes⟩, hlen⟩ := hfv
          simp only [maxBlobLen] at hlen
          simp only [isNull] at hb0
          simp only [fixedSlot, blobSlot, decodeFields, hty, isVar, if_true,
            List.nil_append, List.append_assoc]
          rw [if_neg (by simp [natToLE_length])]
          rw [List.take_left' (natToLE_length 4 bs.length),
            List.drop_left' (natToLE_length 4 bs.length)]
          rw [leToNat_natToLE, Nat.mod_eq_of_lt (by norm_num; omega)]
          rw [if_neg (by simp)]
          rw [List.take_left, List.drop_left]
          rw [hb0]
          simp [hrec, Except.map]
      | vbytes bs =>
          simp only [valueOk, Bool.and_eq_true, beq_iff_eq, decide_eq_true_eq] at hfv
          obtain ⟨⟨hty, hbytes⟩, hlen⟩ := hfv
          simp only [maxBlobLen] at hlen
          simp only [isNull] at hb0
          simp only [fixedSlot, blobSlot, decodeFields, hty, isVar, if_true,
            List.nil_append, List.append_assoc]
          rw [if_neg (by simp [natToLE_length])]
          rw [List.take_left' (natToLE_length 4 bs.length),
            List.drop_left' (natToLE_length 4 bs.length)]
          rw [leToNat_natToLE, Nat.mod_eq_of_lt (by norm_num; omega)]
          rw [if_neg (by simp)]
          rw [List.take_left, List.drop_left]
          rw [hb0]
          simp [hrec, Except.map]
      | vnd bs =>
          simp only [valueOk, Bool.and_eq_true, beq_iff_eq, decide_eq_true_eq] at hfv
          obtain ⟨⟨hty, hbytes⟩, hlen⟩ := hfv
          simp only [maxBlobLen] at hlen
          simp only [isNull] at hb0
          simp only [fixedSlot, blobSlot, decodeFields, hty, isVar, if_true,
            List.nil_append, List.append_assoc]
          rw [if_neg (by simp [natToLE_length])]
          rw [List.take_left' (natToLE_length 4 bs.length),
            List.drop_left' (natToLE_length 4 bs.length)]
          rw [leToNat_natToLE, Nat.mod_eq_of_lt (by norm_num; omega)]
          rw [if_neg (by simp)]
          rw [List.take_left, List.drop_left]
          rw [hb0]
          simp [hrec, Except.map]
      | vnull =>
          simp only [isNull] at hb0
          by_cases hvar : isVar f.ftype = true
          · have hw := isVar_scalarWidth f.ftype hvar
            simp only [fixedSlot, blobSlot, decodeFields, hvar, if_true, hw,
              List.replicate_zero, List.nil_append]
            rw [if_neg (by simp [natToLE_length])]
            rw [List.take_left' (natToLE_length 4 0), List.drop_left' (natToLE_length 4 0)]
            rw [leToNat_natToLE, Nat.mod_eq_of_lt (by norm_num)]
            rw [if_neg (by omega)]
            rw [List.take_zero, List.drop_zero]
            rw [hb0]
            simp [hrec, Except.map]
          · simp only [Bool.not_eq_true] at hvar
            simp only [fixedSlot, blobSlot, decodeFields, hvar, Bool.false_eq_true,
              if_false, List.nil_append]
            rw [if_neg (by simp [List.length_replicate])]
            rw [List.take_left' (List.length_replicate _ _),
              List.drop_left' (List.length_replicate _ _)]
            rw [hb0]
            simp [hrec, Except.map]

/-- C1: for every schema and every valid record conforming to it, the
encoder succeeds and decoding the encoded fixed row and blob buffer
yields the original record (the round-trip law). -/
theorem encode_decode_roundtrip (s : Schema) (r : SRecord) (h : validRecord s r = true) :
    ∃ fx bl, encode s r = .ok (fx, bl) ∧ decode s fx bl = .ok r := by
  have hall := validRecord_forall2 s r h
  have hlen : r.length = s.length := hall.length_eq.symm
  refine ⟨bitmapBytes (r.map isNull) ++ (encodeFields s r).1, (encodeFields s r).2, ?_, ?_⟩
  · simp [encode, h]
  · unfold decode
    have hbmlen : (bitmapBytes (r.map isNull)).length = (s.length + 7) / 8 := by
      rw [bitmapBytes_length]
      simp [hlen]
    rw [if_neg (by simp [hbmlen])]
    rw [List.take_left' hbmlen, List.drop_left' hbmlen]
    apply decodeFields_encodeFields s r _ 0 hall
    intro i hi
    rw [Nat.zero_add]
    rw [bitGet_bitmapBytes _ i (by simpa using hi)]
    rw [List.getD_eq_getElem?_getD, List.getElem?_map, List.getElem?_eq_getElem hi]
    rw [List.getD_eq_getElem _ _ hi]
    simp

/-- C1 witness: the spec example schema `{id: int64, label: int32,
image: bytes}` with the record `(1, 7, 0xff)` round-trips. -/
theorem encode_decode_roundtrip_witness :
    validRecord [⟨"id", .int64, false⟩, ⟨"label", .int32, false⟩, ⟨"image", .bytesT, false⟩]
      [.vint64 1, .vint32 7, .vbytes [255]] = true ∧
    ∃ fx bl,
      encode [⟨"id", .int64, false⟩, ⟨"label", .int32, false⟩, ⟨"image", .bytesT, false⟩]
        [.vint64 1, .vint32 7, .vbytes [255]] = .ok (fx, bl) ∧
      decode [⟨"id", .int64, false⟩, ⟨"label", .int32, false⟩, ⟨"image", .bytesT, false⟩]
        fx bl = .ok [.vint64 1, .vint32 7, .vbytes [255]] :=
  ⟨by decide, encode_decode_roundtrip _ _ (by decide)⟩

/-- C2 counterexample: the actual exported surface of
`mindspore.mindrecord` is not the six-operation collaborator interface:
it exports `MindPage` (and converter tools), which is not among the six,
and exports none of the six names. -/
theorem mindrecord_all_ne_specSurface :
    "MindPage" ∈ mindrecord_all ∧ "MindPage" ∉ specSurface ∧
    "Cifar10ToMR" ∈ mindrecord_all ∧ "Cifar10ToMR" ∉ specSurface ∧
    "create_dataset" ∉ mindrecord_all ∧ mindrecord_all ≠ specSurface := by
  decide

/-- C2 (amended): the public surface of `mindspore.mindrecord` consists
of exactly ten distinct names: the writer, reader and page-reader
handles, five dataset converters, and the two status codes. -/
theorem mindrecord_all_spec :
    mindrecord_all.length = 10 ∧ mindrecord_all.Nodup ∧
    "FileWriter" ∈ mindrecord_all ∧ "FileReader" ∈ mindrecord_all ∧
    "MindPage" ∈ mindrecord_all ∧ "Cifar10ToMR" ∈ mindrecord_all ∧
    "Cifar100ToMR" ∈ mindrecord_all ∧ "ImageNetToMR" ∈ mindrecord_all ∧
    "MnistToMR" ∈ mindrecord_all ∧ "TFRecordToMR" ∈ mindrecord_all ∧
    "SUCCESS" ∈ mindrecord_all ∧ "FAILED" ∈ mindrecord_all := by
  decide

/-- C8: `create_network` raises `NotImplementedError` for every name
other than `"bgcf"`; on `"bgcf"` it returns a BGCF network built from the
parsed configuration with `num_user` overridden to 7068 and `num_item`
overridden to 3570. -/
theorem create_network_spec (name : String) (parsed : BgcfConfig) :
    (name ≠ "bgcf" →
      create_network name parsed =
        .error (.notImplementedError (name ++ " is not implemented in the repo"))) ∧
    (name = "bgcf" →
      create_network name parsed =
        .ok (bgcf_net [parsed.input_dim, 7068, 3570] parsed.embedded_dimension
              parsed.activation [0, 0, 0] 7068 3570 parsed.input_dim)) := by
  constructor
  · intro h
    simp [create_network, h]
  · intro h
    subst h
    simp [create_network]

/-- C8 witness at the concrete names `"bgcf"` and `"gat"`. -/
theorem create_network_spec_witness :
    create_network "bgcf" ⟨64, 1, 2, 64, "tanh"⟩ =
      .ok (bgcf_net [64, 7068, 3570] 64 "tanh" [0, 0, 0] 7068 3570 64) ∧
    create_network "gat" ⟨64, 1, 2, 64, "tanh"⟩ =
      .error (.notImplementedError "gat is not implemented in the repo") :=
  ⟨(create_network_spec "bgcf" ⟨64, 1, 2, 64, "tanh"⟩).2 rfl,
   (create_network_spec "gat" ⟨64, 1, 2, 64, "tanh"⟩).1 (by decide)⟩

/-- C9: `LossGet.__init__` succeeds exactly when `per_print_times` is an
`int` that is not negative; in every other case it raises `ValueError`;
on success it initializes `_loss = 0.0` and `_epoch = 0`. -/
theorem LossGet_init_spec (v : PyVal) (ds : Int) :
    ((∃ g, LossGet_init v ds = .ok g) ↔ ∃ n, v = .pyInt n ∧ 0 ≤ n) ∧
    (¬(∃ n, v = .pyInt n ∧ 0 ≤ n) →
      LossGet_init v ds = .error (.valueError "print_step must be int and >= 0.")) ∧
    (∀ n, v = .pyInt n → 0 ≤ n →
      LossGet_init v ds = .ok ⟨n, 0, ds, 0⟩) := by
  refine ⟨?_, ?_, ?_⟩
  · cases v with
    | pyInt n =>
        by_cases hn : n < 0
        · simp only [LossGet_init, hn, if_true]
          constructor
          · rintro ⟨g, hg⟩
            cases hg
          · rintro ⟨n2, hn2, h0⟩
            cases hn2
            omega
        · simp only [LossGet_init, hn, if_false]
          constructor
          · intro _
            exact ⟨n, rfl, by omega⟩
          · intro _
            exact ⟨_, rfl⟩
    | pyFloat q => simp [LossGet_init]
    | pyStr s => simp [LossGet_init]
    | pyNone => simp [LossGet_init]
  · intro h
    cases v with
    | pyInt n =>
        have hn : n < 0 := by
          by_contra hc
          exact h ⟨n, rfl, by omega⟩
        simp [LossGet_init, hn]
    | pyFloat q => simp [LossGet_init]
    | pyStr s => simp [LossGet_init]
    | pyNone => simp [LossGet_init]
  · intro n hv hn
    subst hv
    simp [LossGet_init, Int.not_lt.mpr hn]

/-- C9 witness at a nonnegative `int`, a negative `int`, and a non-`int`. -/
theorem LossGet_init_spec_witness :
    LossGet_init (.pyInt 2) 5 = .ok ⟨2, 0, 5, 0⟩ ∧
    LossGet_init (.pyInt (-1)) 5 =
      .error (.valueError "print_step must be int and >= 0.") ∧
    LossGet_init (.pyStr "x") 5 =
      .error (.valueError "print_step must be int and >= 0.") :=
  ⟨(LossGet_init_spec (.pyInt 2) 5).2.2 2 rfl (by decide),
   (LossGet_init_spec (.pyInt (-1)) 5).2.1 (by rintro ⟨n, hn, h0⟩; cases hn; omega),
   (LossGet_init_spec (.pyStr "x") 5).2.1 (by rintro ⟨n, hn, h0⟩; cases hn)⟩

/-- C10: for `global_step ≤ steps_per_epoch * total_epochs`, the result
of `get_thor_lr` has exactly `steps_per_epoch * total_epochs -
global_step` entries and is the suffix, starting at `global_step`, of the
full schedule whose entry for step `i` is `lr_init * (1 - ((i+1) /
steps_per_epoch) / total_epochs) ** decay`, halved once per satisfied
decay threshold. -/
theorem get_thor_lr_spec (powf : Rat → Rat → Rat) (global_step : Nat)
    (lr_init decay : Rat) (total_epochs steps_per_epoch : Nat) (decay_epochs : Rat)
    (h : global_step ≤ steps_per_epoch * total_epochs) :
    (get_thor_lr powf global_step lr_init decay total_epochs steps_per_epoch
        decay_epochs).length = steps_per_epoch * total_epochs - global_step ∧
    ∀ j, j < steps_per_epoch * total_epochs - global_step →
      (get_thor_lr powf global_step lr_init decay total_epochs steps_per_epoch
          decay_epochs).getD j 0 =
        thorStepLr powf lr_init decay total_epochs steps_per_epoch decay_epochs
          (global_step + j) := by
  have hrw : get_thor_lr powf global_step lr_init decay total_epochs steps_per_epoch
      decay_epochs =
      ((List.range (steps_per_epoch * total_epochs)).map
        (thorStepLr powf lr_init decay total_epochs steps_per_epoch decay_epochs)).drop
        global_step := by
    show ((List.range (steps_per_epoch * total_epochs)).foldl
        (fun acc i =>
          acc ++ [thorLoopStep powf lr_init decay total_epochs steps_per_epoch
            decay_epochs i]) []).drop global_step = _
    rw [foldl_append_singleton
      (thorLoopStep powf lr_init decay total_epochs steps_per_epoch decay_epochs)]
    rw [funext
      (thorLoopStep_eq_thorStepLr powf lr_init decay total_epochs steps_per_epoch
        decay_epochs)]
    simp only [List.nil_append]
  constructor
  · rw [hrw]
    simp
  · intro j hj
    rw [hrw]
    have hlt : global_step + j < steps_per_epoch * total_epochs := by omega
    have hlen : global_step + j <
        ((List.range (steps_per_epoch * total_epochs)).map
          (thorStepLr powf lr_init decay total_epochs steps_per_epoch
            decay_epochs)).length := by
      simpa using hlt
    rw [List.getD_eq_getElem _ _ (by simpa using hj)]
    rw [List.getElem_drop]
    simp [List.getElem_map, List.getElem_range]

/-- C10 witness at a concrete schedule (two epochs of one step each,
suffix from step 1). -/
theorem get_thor_lr_spec_witness :
    (1 : Nat) ≤ 1 * 2 ∧
    ((get_thor_lr (fun a _ => a) 1 1 1 2 1 1).length = 1 * 2 - 1 ∧
      ∀ j, j < 1 * 2 - 1 →
        (get_thor_lr (fun a _ => a) 1 1 1 2 1 1).getD j 0 =
          thorStepLr (fun a _ => a) 1 1 2 1 1 (1 + j)) :=
  ⟨by decide, get_thor_lr_spec (fun a _ => a) 1 1 1 2 1 1 (by decide)⟩

theorem recCount_le (es : List (List Nat)) (k : Nat) : recCount es k ≤ es.length := by
  induction es generalizing k with
  | nil => simp [recCount]
  | cons e es ih =>
      simp only [recCount, List.length_cons]
      by_cases h : 4 + e.length ≤ k
      · rw [if_pos h]
        have := ih (k - (4 + e.length))
        omega
      · rw [if_neg h]
        omega

theorem parseEntries_cons (len : Nat) (payload rest : List Nat)
    (hlen : payload.length = len) (hsmall : len < 4294967296) :
    parseEntries (natToLE 4 len ++ (payload ++ rest)) = payload :: parseEntries rest := by
  rw [parseEntries]
  simp only [List.take_left' (natToLE_length 4 len), List.drop_left' (natToLE_length 4 len),
    leToNat_natToLE, List.length_append, natToLE_length, hlen]
  rw [Nat.mod_eq_of_lt (show len < 256 ^ 4 by norm_num; omega)]
  rw [if_neg (by omega), if_neg (by omega)]
  rw [List.take_left' hlen, List.drop_left' hlen]

theorem parseEntries_take_serialize (es : List (List Nat)) :
    ∀ k, (∀ e ∈ es, e.length < 4294967296) →
    parseEntries ((serializeEntries es).take k) = es.take (recCount es k) := by
  induction es with
  | nil =>
      intro k hval
      rw [serializeEntries, List.take_nil, parseEntries]
      simp [recCount]
  | cons e es ih =>
      intro k hval
      have he : e.length < 4294967296 := hval e (by simp)
      have hes : ∀ x ∈ es, x.length < 4294967296 := fun x hx => hval x (by simp [hx])
      simp only [serializeEntries, recCount]
      by_cases hk4 : k < 4
      · rw [parseEntries, if_pos (by simp only [List.length_take]; omega)]
        rw [if_neg (by omega), List.take_zero]
      · by_cases hke : k < 4 + e.length
        · have hz : k - (4 + e.length) = 0 := by omega
          have hbytes : (natToLE 4 e.length ++ e ++ serializeEntries es).take k =
              natToLE 4 e.length ++ e.take (k - 4) := by
            rw [List.take_append_eq_append_take]
            rw [List.take_append_eq_append_take, natToLE_length]
            rw [List.take_of_length_le (by rw [natToLE_length]; omega)]
            simp only [List.length_append, natToLE_length]
            rw [hz, List.take_zero, List.append_nil]
          rw [hbytes, parseEntries]
          rw [if_neg (by simp only [List.length_append, natToLE_length]; omega)]
          simp only [List.take_left' (natToLE_length 4 e.length),
            List.drop_left' (natToLE_length 4 e.length), leToNat_natToLE]
          rw [Nat.mod_eq_of_lt (show e.length < 256 ^ 4 by norm_num; omega)]
          rw [if_pos (by simp only [List.length_take]; omega)]
          rw [if_neg (by omega), List.take_zero]
        · have hbytes : (natToLE 4 e.length ++ e ++ serializeEntries es).take k =
              natToLE 4 e.length ++
                (e ++ (serializeEntries es).take (k - (4 + e.length))) := by
            rw [List.take_append_eq_append_take]
            rw [List.take_of_length_le
              (by simp only [List.length_append, natToLE_length]; omega)]
            simp only [List.length_append, natToLE_length, List.append_assoc]
          rw [hbytes, parseEntries_cons e.length e _ rfl he]
          rw [ih (k - (4 + e.length)) hes]
          rw [if_pos (by omega), List.take_succ_cons]

/-- C4: opening a shard tail truncated at an arbitrary byte offset `k`
in recovered mode succeeds (it is a total operation) and yields exactly
the entries whose full length-prefixed encoding lies before the
truncation point — never a partially decoded one — and exposes the count
of recoverable versus total expected records. -/
theorem recovered_open_spec (es : List (List Nat)) (k total : Nat)
    (hval : ∀ e ∈ es, e.length < 4294967296) :
    (openRecovered total ((serializeEntries es).take k)).records =
      es.take (recCount es k) ∧
    (openRecovered total ((serializeEntries es).take k)).recoverable = recCount es k ∧
    (openRecovered total ((serializeEntries es).take k)).total = total ∧
    recCount es k ≤ es.length := by
  have hmain := parseEntries_take_serialize es k hval
  have hle := recCount_le es k
  refine ⟨hmain, ?_, rfl, hle⟩
  show (parseEntries ((serializeEntries es).take k)).length = recCount es k
  rw [hmain, List.length_take]
  omega

/-- C4 witness: two entries of 5 and 6 serialized bytes, truncated at
offset 7: only the first entry is recovered. -/
theorem recovered_open_spec_witness :
    (openRecovered 2 ((serializeEntries [[7], [8, 9]]).take 7)).records =
      [[7], [8, 9]].take (recCount [[7], [8, 9]] 7) ∧
    (openRecovered 2 ((serializeEntries [[7], [8, 9]]).take 7)).recoverable =
      recCount [[7], [8, 9]] 7 ∧
    (openRecovered 2 ((serializeEntries [[7], [8, 9]]).take 7)).total = 2 ∧
    recCount [[7], [8, 9]] 7 ≤ [[7], [8, 9]].length :=
  recovered_open_spec [[7], [8, 9]] 7 2 (by decide)

/-- C5: a Writer in a terminal state rejects `write` with `StateError`
and is left completely unchanged (shard and index state included); and
executing `seal()` or `abort()` from the open state does put the Writer
into the corresponding terminal state. -/
theorem write_terminal_spec (w : Writer) (r : List Nat) :
    (w.state = .sealed ∨ w.state = .aborted →
      (write w r).2 = some .stateError ∧ (write w r).1 = w) ∧
    (w.state = .openW →
      ((sealW w).1.state = .sealed ∧ (abort w).1.state = .aborted)) := by
  constructor
  · rintro (h | h) <;> exact ⟨by simp [write, h], by simp [write, h]⟩
  · intro h
    exact ⟨by simp [sealW, h], by simp [abort, h]⟩

/-- C5 witness: a concrete sealed Writer rejects a write unchanged, and
sealing a concrete open Writer reaches the sealed state. -/
theorem write_terminal_spec_witness :
    ((write ⟨.sealed, [[1]], [], []⟩ [2]).2 = some .stateError ∧
      (write ⟨.sealed, [[1]], [], []⟩ [2]).1 = ⟨.sealed, [[1]], [], []⟩) ∧
    ((sealW ⟨.openW, [], [], []⟩).1.state = .sealed ∧
      (abort ⟨.openW, [], [], []⟩).1.state = .aborted) :=
  ⟨(write_terminal_spec ⟨.sealed, [[1]], [], []⟩ [2]).1 (Or.inl rfl),
   (write_terminal_spec ⟨.openW, [], [], []⟩ [2]).2 rfl⟩

theorem writeAll_open (rs : List (List Nat)) (w : Writer) (h : w.state = .openW) :
    (writeAll w rs).state = .openW ∧ (writeAll w rs).staged = w.staged ++ rs ∧
    (writeAll w rs).durable = w.durable := by
  induction rs generalizing w with
  | nil => simp [writeAll, h]
  | cons r rs ih =>
      have hw : (write w r).1 =
          { w with
              staged := w.staged ++ [r],
              stagedIds := w.stagedIds ++ [w.durable.length + w.staged.length] } := by
        simp [write, h]
      have hstep : writeAll w (r :: rs) = writeAll (write w r).1 rs := by
        simp [writeAll]
      rw [hstep, hw]
      have := ih { w with
        staged := w.staged ++ [r],
        stagedIds := w.stagedIds ++ [w.durable.length + w.staged.length] } (by simp [h])
      simpa using this

/-- C3: from an open Writer, any sequence of `write(record)` calls
followed by `commit()` succeeds, and after the process is killed a fresh
Reader yields the full durable content — every record written before the
commit, byte-for-byte. -/
theorem commit_durable_spec (w : Writer) (rs : List (List Nat)) (h : w.state = .openW) :
    (commit (writeAll w rs)).2 = none ∧
    readerRecords (crash (commit (writeAll w rs)).1) = w.durable ++ w.staged ++ rs ∧
    ∀ r ∈ rs, r ∈ readerRecords (crash (commit (writeAll w rs)).1) := by
  obtain ⟨hst, hstaged, hdur⟩ := writeAll_open rs w h
  refine ⟨by simp [commit, hst], ?_, ?_⟩
  · simp [commit, hst, crash, readerRecords, hstaged, hdur, List.append_assoc]
  · intro r hr
    simp [commit, hst, crash, readerRecords, hstaged, hdur]
    right
    right
    exact hr

/-- C3 witness: two records written from a fresh open Writer, committed
and crashed: both are recovered in order. -/
theorem commit_durable_spec_witness :
    (commit (writeAll ⟨.openW, [], [], []⟩ [[1, 2], [3]])).2 = none ∧
    readerRecords (crash (commit (writeAll ⟨.openW, [], [], []⟩ [[1, 2], [3]])).1) =
      [] ++ [] ++ [[1, 2], [3]] ∧
    ∀ r ∈ [[1, 2], [3]],
      r ∈ readerRecords (crash (commit (writeAll ⟨.openW, [], [], []⟩ [[1, 2], [3]])).1) :=
  commit_durable_spec ⟨.openW, [], [], []⟩ [[1, 2], [3]] rfl

/-- C6: `add(record_id, placement)` fails with `IndexError` exactly when
the record id already exists and overwrite is not requested, appending
the staged entry otherwise; `lookup(record_id)` fails with
`NotFoundError` exactly when the record id is absent. -/
theorem index_add_lookup_spec (im : IndexManager) (rid : Nat) (pl : Placement)
    (ow : Bool) :
    (addEntry im rid pl ow = .error .indexError ↔ hasId im rid = true ∧ ow = false) ∧
    (¬(hasId im rid = true ∧ ow = false) →
      addEntry im rid pl ow = .ok ⟨im.entries ++ [(rid, pl)]⟩) ∧
    (lookup im rid = .error .notFoundError ↔ hasId im rid = false) := by
  refine ⟨?_, ?_, ?_⟩
  · cases hh : hasId im rid <;> cases ow <;> simp [addEntry, hh]
  · intro hn
    have hcond : (hasId im rid && !ow) = false := by
      cases hh : hasId im rid <;> cases ow <;> simp_all
    simp [addEntry, hcond]
  · cases hf : im.entries.find? (fun p => p.1 == rid) with
    | some p =>
        have hl : lookup im rid = .ok p.2 := by simp [lookup, hf]
        have hmem : p ∈ im.entries := List.mem_of_find?_eq_some hf
        have hp := List.find?_some hf
        have hh : hasId im rid = true := by
          simp only [hasId, List.any_eq_true]
          exact ⟨p, hmem, hp⟩
        simp [hl, hh]
    | none =>
        have hl : lookup im rid = .error .notFoundError := by simp [lookup, hf]
        have hh : hasId im rid = false := by
          cases hany : hasId im rid
          · rfl
          · exfalso
            obtain ⟨x, hx, hpx⟩ := List.any_eq_true.mp
              (show im.entries.any (fun p => p.1 == rid) = true from hany)
            have := List.find?_eq_none.mp hf x hx
            simp_all
        simp [hl, hh]

/-- C6 witness: on the singleton index `{0}`, re-adding id 0 without
overwrite fails, adding the fresh id 1 appends it, and looking up the
absent id 1 fails with not-found. -/
theorem index_add_lookup_spec_witness :
    addEntry ⟨[(0, ⟨0, 0, 0, 0⟩)]⟩ 0 ⟨0, 0, 0, 0⟩ false = .error .indexError ∧
    addEntry ⟨[(0, ⟨0, 0, 0, 0⟩)]⟩ 1 ⟨1, 0, 0, 0⟩ false =
      .ok ⟨[(0, ⟨0, 0, 0, 0⟩), (1, ⟨1, 0, 0, 0⟩)]⟩ ∧
    lookup ⟨[(0, ⟨0, 0, 0, 0⟩)]⟩ 1 = .error .notFoundError :=
  ⟨(index_add_lookup_spec ⟨[(0, ⟨0, 0, 0, 0⟩)]⟩ 0 ⟨0, 0, 0, 0⟩ false).1.mpr
      (by decide),
   (index_add_lookup_spec ⟨[(0, ⟨0, 0, 0, 0⟩)]⟩ 1 ⟨1, 0, 0, 0⟩ false).2.1
      (by decide),
   (index_add_lookup_spec ⟨[(0, ⟨0, 0, 0, 0⟩)]⟩ 1 ⟨1, 0, 0, 0⟩ false).2.2.mpr
      (by decide)⟩

/-- C7: `range(start_id, end_id)` produces entries in ascending
record-id order; the scan leaves the index unchanged, so a fresh call
reproduces the same finite sequence; and after writing `N` records under
a per-shard maximum of `m < N` rows, `range(0, N)` returns all `N`
record ids in ascending order even though the records span at least two
shards. -/
theorem range_scan_spec (im : IndexManager) (s e N m : Nat) (hm : 0 < m)
    (hN : m < N) :
    List.Sorted keyLe (rangeScan im s e).1 ∧
    (rangeScan im s e).2 = im ∧
    (rangeScan (rangeScan im s e).2 s e).1 = (rangeScan im s e).1 ∧
    (rangeScan (buildIndex N m) 0 N).1.map Prod.fst = List.range N ∧
    ∃ p ∈ (buildIndex N m).entries, ∃ q ∈ (buildIndex N m).entries,
      p.2.shard_id ≠ q.2.shard_id := by
  have hfilter : (buildIndex N m).entries.filter
      (fun p => decide (0 ≤ p.1) && decide (p.1 < N)) = (buildIndex N m).entries := by
    apply List.filter_eq_self.mpr
    intro p hp
    simp only [buildIndex, List.mem_map, List.mem_range] at hp
    obtain ⟨i, hi, rfl⟩ := hp
    simpa using hi
  have hsorted : List.Sorted keyLe (buildIndex N m).entries := by
    simp only [buildIndex, List.Sorted, List.pairwise_map]
    exact (List.pairwise_lt_range N).imp (fun h => Nat.le_of_lt h)
  refine ⟨List.sorted_insertionSort keyLe _, rfl, rfl, ?_, ?_⟩
  · show (List.insertionSort keyLe _).map Prod.fst = List.range N
    rw [hfilter, List.Sorted.insertionSort_eq hsorted]
    simp only [buildIndex, List.map_map]
    exact List.map_id _
  · refine ⟨(0, ⟨0 / m, 0 % m, 0, 0⟩), ?_, (N - 1, ⟨(N - 1) / m, (N - 1) % m, 0, 0⟩),
      ?_, ?_⟩
    · simp only [buildIndex, List.mem_map, List.mem_range]
      exact ⟨0, by omega, rfl⟩
    · simp only [buildIndex, List.mem_map, List.mem_range]
      exact ⟨N - 1, by omega, rfl⟩
    · have h1 : 1 ≤ (N - 1) / m := (Nat.one_le_div_iff hm).mpr (by omega)
      simp only [Nat.zero_div]
      omega

/-- C7 witness: an unsorted two-entry index is returned sorted, and for
`N = 3` records with at most `m = 2` rows per shard the full range is
all ids in order across two shards. -/
theorem range_scan_spec_witness :
    List.Sorted keyLe (rangeScan ⟨[(1, ⟨0, 1, 0, 0⟩), (0, ⟨0, 0, 0, 0⟩)]⟩ 0 2).1 ∧
    (rangeScan ⟨[(1, ⟨0, 1, 0, 0⟩), (0, ⟨0, 0, 0, 0⟩)]⟩ 0 2).2 =
      ⟨[(1, ⟨0, 1, 0, 0⟩), (0, ⟨0, 0, 0, 0⟩)]⟩ ∧
    (rangeScan (rangeScan ⟨[(1, ⟨0, 1, 0, 0⟩), (0, ⟨0, 0, 0, 0⟩)]⟩ 0 2).2 0 2).1 =
      (rangeScan ⟨[(1, ⟨0, 1, 0, 0⟩), (0, ⟨0, 0, 0, 0⟩)]⟩ 0 2).1 ∧
    (rangeScan (buildIndex 3 2) 0 3).1.map Prod.fst = List.range 3 ∧
    ∃ p ∈ (buildIndex 3 2).entries, ∃ q ∈ (buildIndex 3 2).entries,
      p.2.shard_id ≠ q.2.shard_id :=
  range_scan_spec ⟨[(1, ⟨0, 1, 0, 0⟩), (0, ⟨0, 0, 0, 0⟩)]⟩ 0 2 3 2 (by decide)
    (by decide)

end MindSpec
